import Mathlib

/-!
Shallow embedding of the legacy-adapter framework core
(`LegacySystemAdapter` in `src/engine.ts`, types in `src/types.ts`):
the retry executor, the schema mapper, the per-field value transforms,
the CSV codec, schema inference, and the facade's `execute` metrics logic.

JavaScript runtime values flowing through the pipeline are modelled by the
tagged union `Value`; JS platform builtins used by the code (`Number`,
`Boolean`, `String` coercion, `Date` parsing, `JSON.stringify`) are modelled
for the value shapes the pipeline produces, with each model documented at
its definition.
-/

set_option autoImplicit false

namespace LegacyAdapter

/-- A JS structured value as passed between pipeline stages:
null, undefined, boolean, number (with `none` as the `NaN` marker),
string, array, or plain object (fields as an insertion-ordered
association list, keys unique the way JS object keys are). -/
inductive Value where
  | vNull
  | vUndefined
  | vBool (b : Bool)
  | vNum (n : Option ℚ)
  | vStr (s : String)
  | vArr (items : List Value)
  | vObj (fields : List (String × Value))
deriving Repr

/-- Per-field transform kinds, from `FieldTransform.transformType`. -/
inductive TransformType where
  | date
  | number
  | boolean
  | uppercase
  | lowercase
  | custom
deriving DecidableEq, Repr

/-- `FieldTransform` from `src/types.ts`. -/
structure FieldTransform where
  sourceField : String
  targetField : String
  transformType : TransformType
deriving Repr

/-- `RetryPolicy` from `src/types.ts` (delays as exact rationals, standing
in for JS numbers). -/
structure RetryPolicy where
  maxRetries : ℕ
  initialDelayMs : ℚ
  maxDelayMs : ℚ
  backoffMultiplier : ℚ
deriving Repr

/-- `SchemaMapping` from `src/types.ts`: `sourceFields` is a JS record
(insertion-ordered source → target pairs, source keys unique), `transforms`
is optional. -/
structure SchemaMapping where
  sourceFields : List (String × String)
  transforms : Option (List FieldTransform)
deriving Repr

/-- `AdapterMetrics` from `src/types.ts`. -/
structure AdapterMetrics where
  requestsTotal : ℕ
  requestsSuccess : ℕ
  requestsFailed : ℕ
  avgResponseTime : ℚ
  totalBytesProcessed : ℕ
deriving DecidableEq, Repr

/-- The metrics object initialized in the `LegacySystemAdapter` constructor:
every counter starts at zero. -/
def initialMetrics : AdapterMetrics :=
  { requestsTotal := 0
    requestsSuccess := 0
    requestsFailed := 0
    avgResponseTime := 0
    totalBytesProcessed := 0 }

/-- Model of JS `Math.min` on two numbers. -/
def jsMin (a b : ℚ) : ℚ := if a ≤ b then a else b

/-- Model of JS `String.prototype.split` with a one-character separator
(the source only splits on `','` and newline): `""` splits to `[""]`. -/
def jsSplit (sep : Char) (s : String) : List String :=
  (s.data.splitOn sep).map String.mk

/-- Model of JS `String.prototype.trim`: strip leading and trailing
whitespace. -/
def jsTrim (s : String) : String :=
  String.mk (((s.data.dropWhile Char.isWhitespace).reverse.dropWhile
    Char.isWhitespace).reverse)

/-- Model of JS `String.prototype.toUpperCase` on the ASCII text the
claims exercise. -/
def jsToUpper (s : String) : String := String.mk (s.data.map Char.toUpper)

/-- Model of JS `String.prototype.toLowerCase` on the ASCII text the
claims exercise. -/
def jsToLower (s : String) : String := String.mk (s.data.map Char.toLower)

/-- Model of JS `Array.prototype.join` on strings. -/
def jsJoin (sep : String) : List String → String
  | [] => ""
  | [x] => x
  | x :: xs => x ++ sep ++ jsJoin sep xs

/-- First value bound to a key in a JS object's entry list (JS keys are
unique, so first = only). -/
def lookupField (fields : List (String × Value)) (k : String) : Option Value :=
  (fields.find? (fun p => p.1 == k)).map (·.2)

/-- JS property assignment `obj[k] = v` on an insertion-ordered record:
overwrites in place when `k` is already a key (keeping its position),
appends otherwise. -/
def objSet (fields : List (String × Value)) (k : String) (v : Value) :
    List (String × Value) :=
  if fields.any (fun p => p.1 == k) then
    fields.map (fun p => if p.1 == k then (p.1, v) else p)
  else
    fields ++ [(k, v)]

/-- Model of JS `Boolean(v)` truthiness: null, undefined, false, `0`,
`NaN` and the empty string are falsy; every other primitive, array and
object is truthy. -/
def jsTruthy : Value → Bool
  | .vNull => false
  | .vUndefined => false
  | .vBool b => b
  | .vNum none => false
  | .vNum (some q) => decide (q ≠ 0)
  | .vStr s => decide (s ≠ "")
  | .vArr _ => true
  | .vObj _ => true

/-- Digits of a string as a natural number, `none` when empty or a
non-digit appears. -/
def digitsToNat? (cs : List Char) : Option ℕ :=
  if cs ≠ [] ∧ cs.all Char.isDigit then
    some (cs.foldl (fun n c => 10 * n + (c.toNat - 48)) 0)
  else
    none

/-- Model of JS string→number conversion (`Number(string)`): the trimmed
string must be empty (0) or `[sign] digits [. digits]`; anything else is
`NaN` (`none`). Exotic accepted forms (hex, exponent, `Infinity`) are out
of model; no proved statement depends on them. -/
def jsStringToNumber (s : String) : Option ℚ :=
  let t := jsTrim s
  if t = "" then some 0
  else
    let (sign, body) :=
      match t.data with
      | '-' :: rest => ((-1 : ℚ), rest)
      | '+' :: rest => ((1 : ℚ), rest)
      | cs => ((1 : ℚ), cs)
    match body.splitOn '.' with
    | [intPart] =>
      (digitsToNat? intPart).map (fun n => sign * n)
    | [intPart, fracPart] =>
      match digitsToNat? intPart, digitsToNat? fracPart with
      | some n, some f =>
        some (sign * (n + (f : ℚ) / ((10 : ℚ) ^ fracPart.length)))
      | _, _ => none
    | _ => none

/-- Rendering of a JS number as a string: `NaN` prints `NaN`, integers
print in decimal. Non-integer rationals use the Lean `ℚ` notation as a
stand-in for JS float formatting; no proved statement depends on them. -/
def jsNumToString (n : Option ℚ) : String :=
  match n with
  | none => "NaN"
  | some q => if q.den = 1 then toString q.num else toString q

mutual

/-- Model of JS `String(v)` coercion: `null`/`undefined`/booleans/numbers
print their keywords, arrays join their elements with commas (null and
undefined elements printing empty), objects print `[object Object]`. -/
def jsToString : Value → String
  | .vNull => "null"
  | .vUndefined => "undefined"
  | .vBool b => if b then "true" else "false"
  | .vNum n => jsNumToString n
  | .vStr s => s
  | .vArr xs => jsArrJoin xs
  | .vObj _ => "[object Object]"

/-- `Array.prototype.join(',')` as used by JS array→string coercion. -/
def jsArrJoin : List Value → String
  | [] => ""
  | [x] => jsElemString x
  | x :: xs => jsElemString x ++ "," ++ jsArrJoin xs

/-- One element's contribution to a JS array join: null and undefined
render as the empty string. -/
def jsElemString : Value → String
  | .vNull => ""
  | .vUndefined => ""
  | .vBool b => if b then "true" else "false"
  | .vNum n => jsNumToString n
  | .vStr s => s
  | .vArr xs => jsArrJoin xs
  | .vObj _ => "[object Object]"

end

/-- Model of JS `Number(v)` coercion: null → 0, undefined → NaN, booleans
→ 0/1, strings parse via `jsStringToNumber`, arrays coerce through their
string join, objects are NaN. -/
def jsToNumber : Value → Option ℚ
  | .vNull => some 0
  | .vUndefined => none
  | .vBool b => some (if b then 1 else 0)
  | .vNum n => n
  | .vStr s => jsStringToNumber s
  | .vArr xs => jsStringToNumber (jsArrJoin xs)
  | .vObj _ => none

/-- Whether a character list starts with the digit pattern `\d{4}-\d{2}-\d{2}`. -/
def isoDatePrefix : List Char → Bool
  | a :: b :: c :: d :: '-' :: e :: f :: '-' :: g :: h :: _ =>
    [a, b, c, d, e, f, g, h].all Char.isDigit
  | _ => false

/-- Whether a character list starts with the digit pattern `\d{2}/\d{2}/\d{4}`. -/
def usDatePrefix : List Char → Bool
  | a :: b :: '/' :: c :: d :: '/' :: e :: f :: g :: h :: _ =>
    [a, b, c, d, e, f, g, h].all Char.isDigit
  | _ => false

/-- `looksLikeDate` from the source: a string matching
`/^\d{4}-\d{2}-\d{2}/` or `/^\d{2}\/\d{2}\/\d{4}/`; false on non-strings. -/
def looksLikeDate : Value → Bool
  | .vStr s => isoDatePrefix s.data || usDatePrefix s.data
  | _ => false

/-- Model of JS `Date` parsing followed by `toISOString`, for the ISO
date-only form the spec's examples use: `new Date("YYYY-MM-DD")` with a
calendar-valid month and day parses (UTC midnight), and `toISOString`
yields `YYYY-MM-DDT00:00:00.000Z`. Any other string is an Invalid Date
(`none`), on which JS `toISOString` throws a `RangeError`. Other
platform-accepted date syntaxes are out of model; no proved statement
quantifies over them. -/
def jsDateParseISO? (s : String) : Option String :=
  match s.data with
  | [y1, y2, y3, y4, '-', m1, m2, '-', d1, d2] =>
    if [y1, y2, y3, y4, m1, m2, d1, d2].all Char.isDigit then
      let month := 10 * (m1.toNat - 48) + (m2.toNat - 48)
      let day := 10 * (d1.toNat - 48) + (d2.toNat - 48)
      let year := 1000 * (y1.toNat - 48) + 100 * (y2.toNat - 48) +
        10 * (y3.toNat - 48) + (y4.toNat - 48)
      let leap := (year % 4 = 0 ∧ year % 100 ≠ 0) ∨ year % 400 = 0
      let maxDay :=
        if month = 2 then (if leap then 29 else 28)
        else if month = 4 ∨ month = 6 ∨ month = 9 ∨ month = 11 then 30
        else 31
      if 1 ≤ month ∧ month ≤ 12 ∧ 1 ≤ day ∧ day ≤ maxDay then
        some (s ++ "T00:00:00.000Z")
      else none
    else none
  | _ => none

/-- `applyTransformValue` from the source. The `date` branch is
`new Date(String(value)).toISOString()` (the pipeline's structured values
never contain `Date` instances, so the `instanceof Date` arm is dead):
when the coerced string is an Invalid Date, `toISOString` throws, modelled
as `Except.error`. All other branches are total. -/
def applyTransformValue (value : Value) : TransformType → Except String Value
  | .uppercase =>
    .ok (match value with
      | .vStr s => .vStr (jsToUpper s)
      | v => v)
  | .lowercase =>
    .ok (match value with
      | .vStr s => .vStr (jsToLower s)
      | v => v)
  | .number => .ok (.vNum (jsToNumber value))
  | .boolean => .ok (.vBool (jsTruthy value))
  | .date =>
    match jsDateParseISO? (jsToString value) with
    | some iso => .ok (.vStr iso)
    | none => .error "Invalid time value"
  | .custom => .ok value

/-- JS `typeof v === 'object'`: true for plain objects, arrays and `null`
(a JS quirk), false for primitives and `undefined`. -/
def jsTypeofObject : Value → Bool
  | .vObj _ => true
  | .vArr _ => true
  | .vNull => true
  | _ => false

/-- The natural number whose canonical decimal rendering is the given
string, if any (the JS array-index keys: `"0"`, `"1"`, ..., with no sign,
no leading zero). -/
def canonIndex? (s : String) : Option ℕ :=
  match digitsToNat? s.data with
  | some n => if toString n = s then some n else none
  | none => none

/-- JS `k in v` for the object and array receivers that reach the mapper:
key presence on objects, canonical index presence on arrays. -/
def jsHasKey : Value → String → Bool
  | .vObj fs, k => fs.any (fun p => p.1 == k)
  | .vArr xs, k =>
    match canonIndex? k with
    | some n => decide (n < xs.length)
    | none => false
  | _, _ => false

/-- JS property read `v[k]`: the bound value on objects, the indexed
element on arrays, `undefined` otherwise or when absent. -/
def jsGetProp : Value → String → Value
  | .vObj fs, k => (lookupField fs k).getD .vUndefined
  | .vArr xs, k =>
    match canonIndex? k with
    | some n => (xs.get? n).getD .vUndefined
    | none => .vUndefined
  | _, _ => .vUndefined

/-- The loop of `mapFields`: for each remaining (sourceField, targetField)
entry in order, when `sourceField in data`, assign
`result[targetField] = data[sourceField]`. The `in` operator throws a
`TypeError` on a `null` receiver (which passes the caller's
`typeof === 'object'` guard), modelled as `Except.error`. -/
def mapFieldsGo (data : Value) (mapping : List (String × String))
    (result : List (String × Value)) : Except String (List (String × Value)) :=
  match mapping with
  | [] => .ok result
  | p :: rest =>
    match data with
    | .vNull => .error "Cannot use in operator on null"
    | .vUndefined => .error "Cannot use in operator on undefined"
    | d =>
      if jsHasKey d p.1 then
        mapFieldsGo data rest (objSet result p.2 (jsGetProp d p.1))
      else
        mapFieldsGo data rest result

/-- `mapFields` from the source: fold the mapping's entries over an empty
result object via `mapFieldsGo`, producing a fresh object holding only the
renamed fields. -/
def mapFields (data : Value) (mapping : List (String × String)) :
    Except String (List (String × Value)) :=
  mapFieldsGo data mapping []

/-- JS object spread `\x7b...item\x7d` for the values passing the source's
`typeof item === 'object' && item !== null` test: objects keep their
fields, arrays become objects keyed by canonical indices. -/
def jsSpreadFields : Value → Option (List (String × Value))
  | .vObj fs => some fs
  | .vArr xs => some (xs.enum.map (fun p => (toString p.1, p.2)))
  | _ => none

/-- The per-record body of `applyTransforms`: fold the transform rules in
order over a copy of the record; when the rule's `sourceField` is a key of
the (already partially transformed) record, store the transformed value
under `targetField`. A throwing transform value (invalid date) aborts. -/
def applyTransformsToRecord (fields : List (String × Value)) :
    List FieldTransform → Except String (List (String × Value))
  | [] => .ok fields
  | t :: rest =>
    match lookupField fields t.sourceField with
    | some v =>
      match applyTransformValue v t.transformType with
      | .ok w => applyTransformsToRecord (objSet fields t.targetField w) rest
      | .error e => .error e
    | none => applyTransformsToRecord fields rest

/-- The `data.map(item => ...)` of `applyTransforms`: each element that is
a non-null object is transformed per `applyTransformsToRecord` (after a
shallow spread copy), every other element is kept as is. -/
def transformItems (ts : List FieldTransform) :
    List Value → Except String (List Value)
  | [] => .ok []
  | item :: rest =>
    match
      (match jsSpreadFields item with
       | some fields => (applyTransformsToRecord fields ts).map Value.vObj
       | none => .ok item) with
    | .error e => .error e
    | .ok y =>
      match transformItems ts rest with
      | .error e => .error e
      | .ok ys => .ok (y :: ys)

/-- `applyTransforms` from the source: non-arrays are returned unchanged;
for arrays, `data.map(...)` transforms each element via `transformItems`
(a throwing element propagates, as a JS callback exception does). -/
def applyTransforms (data : Value) (ts : List FieldTransform) :
    Except String Value :=
  match data with
  | .vArr items =>
    match transformItems ts items with
    | .ok out => .ok (.vArr out)
    | .error e => .error e
  | other => .ok other

/-- The body of `applySchemaMapping` from the source when a mapping is
configured, returning `(data, mapped, transformed)`: field renaming runs
when `typeof data === 'object'` (`sourceFields` itself is always truthy)
with `mapped` the number of configured entries, then the transform list,
when present, runs with `transformed` its length. -/
def applySchemaMappingSome (m : SchemaMapping) (data : Value) :
    Except String (Value × ℕ × ℕ) :=
  match
    (if jsTypeofObject data then
      match mapFields data m.sourceFields with
      | .ok fields => .ok (Value.vObj fields, m.sourceFields.length)
      | .error e => .error e
    else
      .ok (data, 0) : Except String (Value × ℕ)) with
  | .error e => .error e
  | .ok step1 =>
    match m.transforms with
    | some ts =>
      match applyTransforms step1.1 ts with
      | .ok r => .ok (r, step1.2, ts.length)
      | .error e => .error e
    | none => .ok (step1.1, step1.2, 0)

/-- `applySchemaMapping` with no mapping configured is the identity with
zero counts; otherwise `applySchemaMappingSome` runs both steps. -/
def applySchemaMapping (sm : Option SchemaMapping) (data : Value) :
    Except String (Value × ℕ × ℕ) :=
  match sm with
  | none => .ok (data, 0, 0)
  | some m => applySchemaMappingSome m data

/-- JSON string quoting as used by `JSON.stringify` on strings: wrap in
double quotes, escaping backslash, quote, and newline. -/
def jsonQuote (s : String) : String :=
  "\"" ++ String.join (s.data.map (fun c =>
    if c = '"' then "\\\""
    else if c = '\\' then "\\\\"
    else if c = '\n' then "\\n"
    else String.singleton c)) ++ "\""

mutual

/-- Model of `JSON.stringify` on the structured values the CSV encoder
feeds it: `null`/`NaN` print `null`, strings quote, arrays bracket,
objects brace with undefined-valued fields omitted. -/
def jsonStringify : Value → String
  | .vNull => "null"
  | .vUndefined => "null"
  | .vBool b => if b then "true" else "false"
  | .vNum none => "null"
  | .vNum (some q) => jsNumToString (some q)
  | .vStr s => jsonQuote s
  | .vArr xs => "[" ++ String.intercalate "," (jsonArrElems xs) ++ "]"
  | .vObj fs => "\x7b" ++ String.intercalate "," (jsonObjEntries fs) ++ "\x7d"

/-- Array elements of a `JSON.stringify` rendering. -/
def jsonArrElems : List Value → List String
  | [] => []
  | x :: xs => jsonStringify x :: jsonArrElems xs

/-- Object entries of a `JSON.stringify` rendering; fields holding
`undefined` are omitted, as `JSON.stringify` does. -/
def jsonObjEntries : List (String × Value) → List String
  | [] => []
  | (_, .vUndefined) :: rest => jsonObjEntries rest
  | (k, v) :: rest => (jsonQuote k ++ ":" ++ jsonStringify v) :: jsonObjEntries rest

end

/-- `Object.keys` for the first CSV record: field names of an object,
canonical indices of an array, empty otherwise. -/
def jsOwnKeys : Value → List String
  | .vObj fs => fs.map (·.1)
  | .vArr xs => (List.range xs.length).map toString
  | _ => []

/-- One CSV cell of `toCSV`: `JSON.stringify(item[h] ?? '')`, so a null or
undefined (or absent) value serializes as the quoted empty string. -/
def csvCell (item : Value) (h : String) : String :=
  match jsGetProp item h with
  | .vNull => jsonQuote ""
  | .vUndefined => jsonQuote ""
  | v => jsonStringify v

/-- `toCSV` from the source: empty input yields the empty string; the
header row is the first record's own keys; each row serializes every
header's cell via `JSON.stringify` and joins with commas; rows join with
newlines after the header row. -/
def toCSV (data : List Value) : String :=
  match data with
  | [] => ""
  | firstItem :: _ =>
    let headers := jsOwnKeys firstItem
    let rows := data.map (fun item =>
      jsJoin "," (headers.map (csvCell item)))
    jsJoin "\n" (jsJoin "," headers :: rows)

/-- One row object built by `parseCSV`: assign
`row[header.trim()] = values[idx]?.trim()` for every header in order
(a short row leaves trailing headers bound to `undefined`). -/
def parseCSVRow (headers : List String) (values : List String) :
    List (String × Value) :=
  headers.enum.foldl
    (fun row p =>
      objSet row (jsTrim p.2)
        (match values.get? p.1 with
         | some v => Value.vStr (jsTrim v)
         | none => Value.vUndefined))
    []

/-- `parseCSV` from the source: split on newlines, drop blank lines, take
the first line as the header row (split on commas), and turn every later
line into a row object with trimmed keys and values. -/
def parseCSV (csv : String) : List Value :=
  let lines := (jsSplit '\n' csv).filter (fun l => jsTrim l ≠ "")
  match lines with
  | [] => []
  | headerLine :: rest =>
    let headers := jsSplit ',' headerLine
    rest.map (fun line => Value.vObj (parseCSVRow headers (jsSplit ',' line)))

/-- Outcome of the retry loop: the final result, how many times the
operation was invoked, and the list of backoff delays slept, in order. -/
structure RetryOutcome (ε α : Type) where
  result : Except ε α
  attempts : ℕ
  sleeps : List ℚ
deriving Repr

/-- The body of `executeWithRetry`'s `for` loop, with `remaining` the
number of attempts still allowed after the current one
(`maxRetries - attempt`): try the operation at the current attempt index;
on success return immediately; on failure, when attempts remain, sleep the
current delay, update it to `min(delay * backoffMultiplier, maxDelayMs)`,
and continue; otherwise propagate this last error. -/
def retryGo {ε α : Type} (op : ℕ → Except ε α) (mult maxDelay : ℚ)
    (attempt : ℕ) : ℕ → ℚ → RetryOutcome ε α
  | remaining, delay =>
    match op attempt with
    | .ok v => { result := .ok v, attempts := 1, sleeps := [] }
    | .error e =>
      match remaining with
      | 0 => { result := .error e, attempts := 1, sleeps := [] }
      | r + 1 =>
        let rest := retryGo op mult maxDelay (attempt + 1) r
          (jsMin (delay * mult) maxDelay)
        { result := rest.result
          attempts := rest.attempts + 1
          sleeps := delay :: rest.sleeps }

/-- `executeWithRetry` from the source, over an abstract operation giving
each attempt index's outcome: start at attempt 0 with
`initialDelayMs` as the current delay and `maxRetries` further attempts
allowed. -/
def executeWithRetry {ε α : Type} (op : ℕ → Except ε α) (p : RetryPolicy) :
    RetryOutcome ε α :=
  retryGo op p.backoffMultiplier p.maxDelayMs 0 p.maxRetries p.initialDelayMs

/-- The evolution of the loop's `delay` variable: `k` failed attempts
after starting from `d`, each applying
`delay = min(delay * mult, maxDelay)`. -/
def delayFrom (mult maxDelay : ℚ) : ℚ → ℕ → ℚ
  | d, 0 => d
  | d, k + 1 => delayFrom mult maxDelay (jsMin (d * mult) maxDelay) k

/-- The backoff delay slept before retry number `k+1` under a policy:
`delaySeq p 0 = initialDelayMs`, and each successor applies the source's
update rule. -/
def delaySeq (p : RetryPolicy) (k : ℕ) : ℚ :=
  delayFrom p.backoffMultiplier p.maxDelayMs p.initialDelayMs k

/-- Inferred field types from `src/types.ts`. -/
inductive FieldType where
  | string
  | number
  | boolean
  | date
  | array
  | object
deriving DecidableEq, Repr

/-- `inferFieldType` from the source: null/undefined default to `string`;
numbers (NaN included), booleans, arrays, objects map to their tags;
date-looking text maps to `date`; all other text to `string`. -/
def inferFieldType : Value → FieldType
  | .vNull => .string
  | .vUndefined => .string
  | .vNum _ => .number
  | .vBool _ => .boolean
  | .vArr _ => .array
  | .vObj _ => .object
  | .vStr s => if looksLikeDate (.vStr s) then .date else .string

/-- `InferredField` from `src/types.ts`; a sample value of `vUndefined`
records a missing field. -/
structure InferredField where
  name : String
  type : FieldType
  nullable : Bool
  sampleValues : List Value
deriving Repr

/-- `InferredSchema` from `src/types.ts`. -/
structure InferredSchema where
  fields : List InferredField
  confidence : ℚ
  suggestions : List String
deriving Repr

/-- JS `v === null || v === undefined`. -/
def isNullish : Value → Bool
  | .vNull => true
  | .vUndefined => true
  | _ => false

/-- `inferSchema` from the source. A non-empty array whose first element
is an object yields one field per entry of that first element, typed from
the first element's value, `nullable` when any array element is
null/missing at the key, `sampleValues` from the first five elements. A
single (non-array) object yields one field per entry with `nullable` and
`sampleValues` from that one value. Anything else (including an empty
array) yields no fields. Suggestions report zero fields and string fields
with date-looking samples; confidence is `min(1, fieldCount / 10)`. -/
def inferSchema (sampleData : Value) : InferredSchema :=
  let fields : List InferredField :=
    match sampleData with
    | .vArr [] => []
    | .vArr (first :: rest) =>
      (match first with
       | .vObj entries =>
         entries.map (fun e =>
           { name := e.1
             type := inferFieldType e.2
             nullable := (first :: rest).any (fun item => isNullish (jsGetProp item e.1))
             sampleValues := ((first :: rest).take 5).map (fun item => jsGetProp item e.1) })
       | _ => [])
    | .vObj entries =>
      entries.map (fun e =>
        { name := e.1
          type := inferFieldType e.2
          nullable := isNullish e.2
          sampleValues := [e.2] })
    | _ => []
  let baseSuggestions : List String :=
    if fields.length = 0 then ["Unable to infer schema from empty or invalid data"] else []
  let dateFields := fields.filter (fun f =>
    f.type = FieldType.string && f.sampleValues.any looksLikeDate)
  let suggestions :=
    baseSuggestions ++
      (if dateFields.length > 0 then
        ["Consider adding date transforms for: " ++
          jsJoin ", " (dateFields.map (·.name))]
      else [])
  { fields := fields
    confidence := min 1 ((fields.length : ℚ) / 10)
    suggestions := suggestions }

/-- The raw result of one successful transport call. -/
structure TransportResult where
  data : Value
  status : ℕ
  headers : List (String × String)
deriving Repr

/-- HTTP methods of `AdapterRequest`. -/
inductive Method where
  | GET
  | POST
  | PUT
  | DELETE
  | PATCH
deriving DecidableEq, Repr

/-- `ResponseMetadata` from `src/types.ts` (timestamp supplied by the
clock, modelled as an input). -/
structure ResponseMetadata where
  duration : ℚ
  timestamp : String
  adapter : String
deriving DecidableEq, Repr

/-- `AdapterResponse` from `src/types.ts`. -/
structure AdapterResponse where
  success : Bool
  data : Option Value
  error : Option String
  statusCode : Option ℕ
  headers : Option (List (String × String))
  metadata : ResponseMetadata
deriving Repr

/-- `execute` from the source, as a function of the adapter's metrics
state. The transport call per attempt (`op`), the transformation pipeline
applied to GET response bodies (`transformStep`, an arbitrary fallible
step), the measured duration and the clock timestamp are inputs. It
increments `requestsTotal`, runs the retry loop and (for GETs) the
transformation; on success it increments `requestsSuccess` and folds the
duration into the running average; on any caught failure it increments
`requestsFailed` and returns a structured `success := false` response
carrying the error message — nothing escapes. -/
def execute (adapterName : String) (p : RetryPolicy)
    (transformStep : Value → Except String Value)
    (op : ℕ → Except String TransportResult)
    (method : Method) (duration : ℚ) (timestamp : String)
    (m : AdapterMetrics) : AdapterResponse × AdapterMetrics :=
  let m1 := { m with requestsTotal := m.requestsTotal + 1 }
  match (executeWithRetry op p).result with
  | .ok result =>
    match (if method = Method.GET then transformStep result.data else .ok result.data) with
    | .ok transformedData =>
      let m2 := { m1 with requestsSuccess := m1.requestsSuccess + 1 }
      let n : ℚ := (m2.requestsSuccess : ℚ)
      let m3 := { m2 with avgResponseTime := (m2.avgResponseTime * (n - 1) + duration) / n }
      ({ success := true
         data := some transformedData
         error := none
         statusCode := some result.status
         headers := some result.headers
         metadata := { duration := duration, timestamp := timestamp, adapter := adapterName } },
       m3)
    | .error e =>
      ({ success := false
         data := none
         error := some e
         statusCode := none
         headers := none
         metadata := { duration := duration, timestamp := timestamp, adapter := adapterName } },
       { m1 with requestsFailed := m1.requestsFailed + 1 })
  | .error e =>
    ({ success := false
       data := none
       error := some e
       statusCode := none
       headers := none
       metadata := { duration := duration, timestamp := timestamp, adapter := adapterName } },
     { m1 with requestsFailed := m1.requestsFailed + 1 })

/-- A heap of allocated metrics objects, for stating the aliasing
behaviour of `getMetrics`: addresses mapped to `AdapterMetrics` values,
with the adapter's own `this.metrics` object at `selfAddr`. -/
structure MetricsHeap where
  store : List (ℕ × AdapterMetrics)
  selfAddr : ℕ
deriving Repr

/-- Value held at an address of a metrics heap. -/
def heapGet (store : List (ℕ × AdapterMetrics)) (a : ℕ) : Option AdapterMetrics :=
  (store.find? (fun p => p.1 == a)).map (·.2)

/-- Overwrite the value held at an address. -/
def heapWrite (store : List (ℕ × AdapterMetrics)) (a : ℕ) (v : AdapterMetrics) :
    List (ℕ × AdapterMetrics) :=
  store.map (fun p => if p.1 == a then (p.1, v) else p)

/-- An address strictly larger than every allocated address. -/
def freshAddr (store : List (ℕ × AdapterMetrics)) : ℕ :=
  (store.map (·.1)).foldr max 0 + 1

/-- `getMetrics` from the source: `return \x7b ...this.metrics \x7d` — allocate a
fresh object holding a shallow copy of the internal metrics and return its
address; the internal object is untouched. -/
def getMetrics (h : MetricsHeap) : MetricsHeap × ℕ :=
  let copied := (heapGet h.store h.selfAddr).getD initialMetrics
  let a := freshAddr h.store
  ({ h with store := (a, copied) :: h.store }, a)

/-! ## Retry executor lemmas -/

theorem retryGo_ok {ε α : Type} {op : ℕ → Except ε α} {mult maxD : ℚ}
    {attempt remaining : ℕ} {delay : ℚ} {v : α} (h : op attempt = .ok v) :
    retryGo op mult maxD attempt remaining delay =
      { result := .ok v, attempts := 1, sleeps := [] } := by
  unfold retryGo
  rw [h]

theorem retryGo_error_last {ε α : Type} {op : ℕ → Except ε α} {mult maxD : ℚ}
    {attempt : ℕ} {delay : ℚ} {e : ε} (h : op attempt = .error e) :
    retryGo op mult maxD attempt 0 delay =
      { result := .error e, attempts := 1, sleeps := [] } := by
  unfold retryGo
  rw [h]

theorem retryGo_error_step {ε α : Type} {op : ℕ → Except ε α} {mult maxD : ℚ}
    {attempt r : ℕ} {delay : ℚ} {e : ε} (h : op attempt = .error e) :
    retryGo op mult maxD attempt (r + 1) delay =
      { result := (retryGo op mult maxD (attempt + 1) r (jsMin (delay * mult) maxD)).result
        attempts := (retryGo op mult maxD (attempt + 1) r (jsMin (delay * mult) maxD)).attempts + 1
        sleeps := delay :: (retryGo op mult maxD (attempt + 1) r (jsMin (delay * mult) maxD)).sleeps } := by
  conv_lhs => unfold retryGo
  rw [h]

theorem retryGo_all_fail {ε α : Type} (op : ℕ → Except ε α) (mult maxD : ℚ) :
    ∀ (remaining attempt : ℕ) (delay : ℚ),
      (∀ i, attempt ≤ i → i ≤ attempt + remaining → ∃ e, op i = .error e) →
      (retryGo op mult maxD attempt remaining delay).attempts = remaining + 1 ∧
      (retryGo op mult maxD attempt remaining delay).result = op (attempt + remaining) := by
  intro remaining
  induction remaining with
  | zero =>
    intro attempt delay h
    obtain ⟨e, he⟩ := h attempt le_rfl (by omega)
    rw [retryGo_error_last he]
    simp [he]
  | succ r ih =>
    intro attempt delay h
    obtain ⟨e, he⟩ := h attempt le_rfl (by omega)
    have hrec := ih (attempt + 1) (jsMin (delay * mult) maxD)
      (fun i h1 h2 => h i (by omega) (by omega))
    have hidx : attempt + 1 + r = attempt + (r + 1) := by omega
    rw [hidx] at hrec
    rw [retryGo_error_step he]
    refine ⟨?_, hrec.2⟩
    show (retryGo op mult maxD (attempt + 1) r (jsMin (delay * mult) maxD)).attempts + 1 = r + 1 + 1
    rw [hrec.1]

theorem retryGo_first_success {ε α : Type} (op : ℕ → Except ε α) (mult maxD : ℚ) :
    ∀ (remaining attempt : ℕ) (delay : ℚ) (k : ℕ) (v : α),
      attempt ≤ k → k ≤ attempt + remaining → op k = .ok v →
      (∀ i, attempt ≤ i → i < k → ∃ e, op i = .error e) →
      (retryGo op mult maxD attempt remaining delay).attempts = k - attempt + 1 ∧
      (retryGo op mult maxD attempt remaining delay).result = .ok v := by
  intro remaining
  induction remaining with
  | zero =>
    intro attempt delay k v h1 h2 hk _
    have hka : k = attempt := by omega
    subst hka
    rw [retryGo_ok hk]
    simp
  | succ r ih =>
    intro attempt delay k v h1 h2 hk hfail
    rcases Nat.eq_or_lt_of_le h1 with heq | hlt
    · subst heq
      rw [retryGo_ok hk]
      simp
    · obtain ⟨e, he⟩ := hfail attempt le_rfl hlt
      have hrec := ih (attempt + 1) (jsMin (delay * mult) maxD) k v (by omega) (by omega)
        hk (fun i hi1 hi2 => hfail i (by omega) hi2)
      rw [retryGo_error_step he]
      refine ⟨?_, hrec.2⟩
      show (retryGo op mult maxD (attempt + 1) r (jsMin (delay * mult) maxD)).attempts + 1 = k - attempt + 1
      rw [hrec.1]
      omega

theorem retryGo_sleeps_spec {ε α : Type} (op : ℕ → Except ε α) (mult maxD : ℚ) :
    ∀ (remaining attempt : ℕ) (delay : ℚ), ∃ n,
      (retryGo op mult maxD attempt remaining delay).sleeps =
        (List.range n).map (delayFrom mult maxD delay) := by
  intro remaining
  induction remaining with
  | zero =>
    intro attempt delay
    refine ⟨0, ?_⟩
    cases hop : op attempt with
    | ok v => rw [retryGo_ok hop]; rfl
    | error e => rw [retryGo_error_last hop]; rfl
  | succ r ih =>
    intro attempt delay
    cases hop : op attempt with
    | ok v => exact ⟨0, by rw [retryGo_ok hop]; rfl⟩
    | error e =>
      obtain ⟨n, hn⟩ := ih (attempt + 1) (jsMin (delay * mult) maxD)
      refine ⟨n + 1, ?_⟩
      rw [retryGo_error_step hop, List.range_succ_eq_map, List.map_cons, List.map_map]
      rw [hn]
      rfl

/-- C1: under any retry policy with `maxRetries = n`, an operation failing
on every attempt is invoked exactly `n + 1` times and the propagated error
is the outcome of attempt index `n`; an operation first succeeding at
attempt `k ≤ n` returns that result with exactly `k + 1` invocations (no
further attempts); and `maxRetries = 0` always performs exactly one
attempt. -/
theorem executeWithRetry_attempt_semantics {ε α : Type} (p : RetryPolicy)
    (op : ℕ → Except ε α) :
    ((∀ i, i ≤ p.maxRetries → ∃ e, op i = .error e) →
      (executeWithRetry op p).attempts = p.maxRetries + 1 ∧
      (executeWithRetry op p).result = op p.maxRetries) ∧
    (∀ k v, k ≤ p.maxRetries → op k = .ok v →
      (∀ i, i < k → ∃ e, op i = .error e) →
      (executeWithRetry op p).attempts = k + 1 ∧
      (executeWithRetry op p).result = .ok v) ∧
    (p.maxRetries = 0 → (executeWithRetry op p).attempts = 1) := by
  refine ⟨?_, ?_, ?_⟩
  · intro h
    have hrun := retryGo_all_fail op p.backoffMultiplier p.maxDelayMs p.maxRetries 0
      p.initialDelayMs (fun i _ h2 => h i (by omega))
    simpa [executeWithRetry] using hrun
  · intro k v hk hok hfail
    have hrun := retryGo_first_success op p.backoffMultiplier p.maxDelayMs p.maxRetries 0
      p.initialDelayMs k v (by omega) (by omega) hok (fun i _ h2 => hfail i h2)
    simpa [executeWithRetry] using hrun
  · intro h0
    cases hop : op 0 <;> simp [executeWithRetry, h0, retryGo, hop]

theorem executeWithRetry_attempt_semantics_witness :
    ((executeWithRetry (fun i => (Except.error (toString i) : Except String ℕ))
        { maxRetries := 3, initialDelayMs := 1000, maxDelayMs := 10000,
          backoffMultiplier := 2 }).attempts = 4 ∧
      (executeWithRetry (fun i => (Except.error (toString i) : Except String ℕ))
        { maxRetries := 3, initialDelayMs := 1000, maxDelayMs := 10000,
          backoffMultiplier := 2 }).result = Except.error "3") ∧
    ((executeWithRetry (fun i => if i = 2 then Except.ok 42 else (Except.error (toString i) : Except String ℕ))
        { maxRetries := 5, initialDelayMs := 1000, maxDelayMs := 10000,
          backoffMultiplier := 2 }).attempts = 3 ∧
      (executeWithRetry (fun i => if i = 2 then Except.ok 42 else (Except.error (toString i) : Except String ℕ))
        { maxRetries := 5, initialDelayMs := 1000, maxDelayMs := 10000,
          backoffMultiplier := 2 }).result = Except.ok 42) := by
  constructor
  · have h := (executeWithRetry_attempt_semantics
      { maxRetries := 3, initialDelayMs := 1000, maxDelayMs := 10000, backoffMultiplier := 2 }
      (fun i => (Except.error (toString i) : Except String ℕ))).1
      (fun i _ => ⟨toString i, rfl⟩)
    exact ⟨h.1, by rw [h.2]; rfl⟩
  · have h := (executeWithRetry_attempt_semantics
      { maxRetries := 5, initialDelayMs := 1000, maxDelayMs := 10000, backoffMultiplier := 2 }
      (fun i => if i = 2 then Except.ok 42 else (Except.error (toString i) : Except String ℕ))).2.1
      2 42 (by decide) rfl
      (fun i hi => ⟨toString i, by rw [if_neg (by omega : ¬ i = 2)]⟩)
    exact ⟨h.1, h.2⟩

theorem delayFrom_succ (mult maxD : ℚ) :
    ∀ (k : ℕ) (d : ℚ),
      delayFrom mult maxD d (k + 1) = jsMin (delayFrom mult maxD d k * mult) maxD := by
  intro k
  induction k with
  | zero => intro d; rfl
  | succ n ih =>
    intro d
    have h1 : delayFrom mult maxD d (n + 1 + 1) =
        delayFrom mult maxD (jsMin (d * mult) maxD) (n + 1) := rfl
    have h2 : delayFrom mult maxD d (n + 1) =
        delayFrom mult maxD (jsMin (d * mult) maxD) n := rfl
    rw [h1, ih, h2]

theorem delayFrom_pos_le (mult maxD : ℚ) (hm : 1 ≤ mult) :
    ∀ (k : ℕ) (d : ℚ), 0 < d → d ≤ maxD →
      0 < delayFrom mult maxD d k ∧ delayFrom mult maxD d k ≤ maxD := by
  intro k
  induction k with
  | zero => intro d h1 h2; exact ⟨h1, h2⟩
  | succ n ih =>
    intro d h1 h2
    have hstep : delayFrom mult maxD d (n + 1) =
        delayFrom mult maxD (jsMin (d * mult) maxD) n := rfl
    rw [hstep]
    apply ih
    · unfold jsMin
      split
      · nlinarith
      · linarith
    · unfold jsMin
      split
      · assumption
      · exact le_rfl

/-- C6: for a policy with positive `initialDelayMs`,
`maxDelayMs ≥ initialDelayMs` and `backoffMultiplier ≥ 1`, the delay
sequence starts at `initialDelayMs`, each successor is
`min(previous * backoffMultiplier, maxDelayMs)`, the sequence is
non-decreasing and capped by `maxDelayMs`, and the delays actually slept
by any retry run are an initial segment of that sequence. -/
theorem backoff_delay_sequence (p : RetryPolicy) (hd : 0 < p.initialDelayMs)
    (hmd : p.initialDelayMs ≤ p.maxDelayMs) (hm : 1 ≤ p.backoffMultiplier) :
    delaySeq p 0 = p.initialDelayMs ∧
    (∀ k, delaySeq p (k + 1) = jsMin (delaySeq p k * p.backoffMultiplier) p.maxDelayMs) ∧
    (∀ k, delaySeq p k ≤ delaySeq p (k + 1)) ∧
    (∀ k, delaySeq p k ≤ p.maxDelayMs) ∧
    (∀ (ε α : Type) (op : ℕ → Except ε α), ∃ n,
      (executeWithRetry op p).sleeps = (List.range n).map (delaySeq p)) := by
  have hbounds : ∀ k, 0 < delaySeq p k ∧ delaySeq p k ≤ p.maxDelayMs := fun k =>
    delayFrom_pos_le p.backoffMultiplier p.maxDelayMs hm k p.initialDelayMs hd hmd
  refine ⟨rfl, fun k => delayFrom_succ _ _ k _, ?_, fun k => (hbounds k).2, ?_⟩
  · intro k
    have hsucc := delayFrom_succ p.backoffMultiplier p.maxDelayMs k p.initialDelayMs
    show delaySeq p k ≤ delaySeq p (k + 1)
    unfold delaySeq at *
    rw [hsucc]
    unfold jsMin
    split
    · nlinarith [(hbounds k).1]
    · exact (hbounds k).2
  · intro ε α op
    exact retryGo_sleeps_spec op p.backoffMultiplier p.maxDelayMs p.maxRetries 0 p.initialDelayMs

theorem backoff_delay_sequence_witness :
    ((∀ k, delaySeq { maxRetries := 6, initialDelayMs := 1000, maxDelayMs := 10000, backoffMultiplier := 2 } k ≤
      delaySeq { maxRetries := 6, initialDelayMs := 1000, maxDelayMs := 10000, backoffMultiplier := 2 } (k + 1)) ∧
      (∀ k, delaySeq { maxRetries := 6, initialDelayMs := 1000, maxDelayMs := 10000, backoffMultiplier := 2 } k ≤ 10000)) ∧
    (List.range 6).map (delaySeq { maxRetries := 6, initialDelayMs := 1000, maxDelayMs := 10000, backoffMultiplier := 2 }) =
      [1000, 2000, 4000, 8000, 10000, 10000] := by
  have h := backoff_delay_sequence
    { maxRetries := 6, initialDelayMs := 1000, maxDelayMs := 10000, backoffMultiplier := 2 }
    (by norm_num) (by norm_num) (by norm_num)
  have e0 : delaySeq { maxRetries := 6, initialDelayMs := 1000, maxDelayMs := 10000, backoffMultiplier := 2 } 0 = 1000 := h.1
  have e1 : delaySeq { maxRetries := 6, initialDelayMs := 1000, maxDelayMs := 10000, backoffMultiplier := 2 } 1 = 2000 := by
    rw [show (1 : ℕ) = 0 + 1 from rfl, h.2.1 0, e0]; norm_num [jsMin]
  have e2 : delaySeq { maxRetries := 6, initialDelayMs := 1000, maxDelayMs := 10000, backoffMultiplier := 2 } 2 = 4000 := by
    rw [show (2 : ℕ) = 1 + 1 from rfl, h.2.1 1, e1]; norm_num [jsMin]
  have e3 : delaySeq { maxRetries := 6, initialDelayMs := 1000, maxDelayMs := 10000, backoffMultiplier := 2 } 3 = 8000 := by
    rw [show (3 : ℕ) = 2 + 1 from rfl, h.2.1 2, e2]; norm_num [jsMin]
  have e4 : delaySeq { maxRetries := 6, initialDelayMs := 1000, maxDelayMs := 10000, backoffMultiplier := 2 } 4 = 10000 := by
    rw [show (4 : ℕ) = 3 + 1 from rfl, h.2.1 3, e3]; norm_num [jsMin]
  have e5 : delaySeq { maxRetries := 6, initialDelayMs := 1000, maxDelayMs := 10000, backoffMultiplier := 2 } 5 = 10000 := by
    rw [show (5 : ℕ) = 4 + 1 from rfl, h.2.1 4, e4]; norm_num [jsMin]
  refine ⟨⟨h.2.2.1, fun k => h.2.2.2.1 k⟩, ?_⟩
  rw [show List.range 6 = [0, 1, 2, 3, 4, 5] from rfl]
  simp [e0, e1, e2, e3, e4, e5]

/-! ## Adapter facade (`execute`) lemmas -/

/-- C4: when every transport attempt fails, `execute` returns a structured
`success := false` response carrying the final attempt's error message and
the duration/timestamp metadata (no exception escapes: `execute` is a total
function into responses), increments `requestsFailed` and `requestsTotal`
by exactly one each, and leaves `requestsSuccess` and `avgResponseTime`
unchanged. -/
theorem execute_transport_failure (adapterName : String) (p : RetryPolicy)
    (transformStep : Value → Except String Value)
    (op : ℕ → Except String TransportResult) (method : Method)
    (duration : ℚ) (timestamp : String) (m : AdapterMetrics) (errs : ℕ → String)
    (hop : ∀ i, i ≤ p.maxRetries → op i = .error (errs i)) :
    (execute adapterName p transformStep op method duration timestamp m).1.success = false ∧
    (execute adapterName p transformStep op method duration timestamp m).1.error =
      some (errs p.maxRetries) ∧
    (execute adapterName p transformStep op method duration timestamp m).1.metadata =
      { duration := duration, timestamp := timestamp, adapter := adapterName } ∧
    (execute adapterName p transformStep op method duration timestamp m).2.requestsTotal =
      m.requestsTotal + 1 ∧
    (execute adapterName p transformStep op method duration timestamp m).2.requestsFailed =
      m.requestsFailed + 1 ∧
    (execute adapterName p transformStep op method duration timestamp m).2.requestsSuccess =
      m.requestsSuccess ∧
    (execute adapterName p transformStep op method duration timestamp m).2.avgResponseTime =
      m.avgResponseTime := by
  have hres : (executeWithRetry op p).result = .error (errs p.maxRetries) := by
    have hrun := (retryGo_all_fail op p.backoffMultiplier p.maxDelayMs p.maxRetries 0
      p.initialDelayMs (fun i _ h2 => ⟨errs i, hop i (by omega)⟩)).2
    rw [Nat.zero_add] at hrun
    rw [hop p.maxRetries le_rfl] at hrun
    exact hrun
  simp [execute, hres]

theorem execute_transport_failure_witness :
    (execute "a" { maxRetries := 1, initialDelayMs := 1, maxDelayMs := 1, backoffMultiplier := 1 }
      (fun v => .ok v) (fun _ => .error "boom") .GET 5 "ts" initialMetrics).1.success = false ∧
    (execute "a" { maxRetries := 1, initialDelayMs := 1, maxDelayMs := 1, backoffMultiplier := 1 }
      (fun v => .ok v) (fun _ => .error "boom") .GET 5 "ts" initialMetrics).1.error = some "boom" ∧
    (execute "a" { maxRetries := 1, initialDelayMs := 1, maxDelayMs := 1, backoffMultiplier := 1 }
      (fun v => .ok v) (fun _ => .error "boom") .GET 5 "ts" initialMetrics).2.requestsTotal = 1 ∧
    (execute "a" { maxRetries := 1, initialDelayMs := 1, maxDelayMs := 1, backoffMultiplier := 1 }
      (fun v => .ok v) (fun _ => .error "boom") .GET 5 "ts" initialMetrics).2.requestsFailed = 1 ∧
    (execute "a" { maxRetries := 1, initialDelayMs := 1, maxDelayMs := 1, backoffMultiplier := 1 }
      (fun v => .ok v) (fun _ => .error "boom") .GET 5 "ts" initialMetrics).2.requestsSuccess = 0 ∧
    (execute "a" { maxRetries := 1, initialDelayMs := 1, maxDelayMs := 1, backoffMultiplier := 1 }
      (fun v => .ok v) (fun _ => .error "boom") .GET 5 "ts" initialMetrics).2.avgResponseTime = 0 := by
  have h := execute_transport_failure "a"
    { maxRetries := 1, initialDelayMs := 1, maxDelayMs := 1, backoffMultiplier := 1 }
    (fun v => .ok v) (fun _ => .error "boom") .GET 5 "ts" initialMetrics
    (fun _ => "boom") (fun i _ => rfl)
  exact ⟨h.1, h.2.1, h.2.2.2.1, h.2.2.2.2.1, h.2.2.2.2.2.1, h.2.2.2.2.2.2⟩

/-- C9: the metrics invariant `requestsTotal = requestsSuccess + requestsFailed`
holds of the constructor's zeroed metrics, and every `execute` call, on every
control path, increments `requestsTotal` exactly once and then exactly one of
`requestsSuccess` or `requestsFailed` exactly once, so the invariant is
preserved. -/
theorem execute_metrics_invariant (adapterName : String) (p : RetryPolicy)
    (transformStep : Value → Except String Value)
    (op : ℕ → Except String TransportResult) (method : Method)
    (duration : ℚ) (timestamp : String) (m : AdapterMetrics) :
    initialMetrics.requestsTotal = initialMetrics.requestsSuccess + initialMetrics.requestsFailed ∧
    (execute adapterName p transformStep op method duration timestamp m).2.requestsTotal =
      m.requestsTotal + 1 ∧
    (((execute adapterName p transformStep op method duration timestamp m).2.requestsSuccess =
          m.requestsSuccess + 1 ∧
        (execute adapterName p transformStep op method duration timestamp m).2.requestsFailed =
          m.requestsFailed) ∨
      ((execute adapterName p transformStep op method duration timestamp m).2.requestsFailed =
          m.requestsFailed + 1 ∧
        (execute adapterName p transformStep op method duration timestamp m).2.requestsSuccess =
          m.requestsSuccess)) ∧
    (m.requestsTotal = m.requestsSuccess + m.requestsFailed →
      (execute adapterName p transformStep op method duration timestamp m).2.requestsTotal =
        (execute adapterName p transformStep op method duration timestamp m).2.requestsSuccess +
        (execute adapterName p transformStep op method duration timestamp m).2.requestsFailed) := by
  cases hres : (executeWithRetry op p).result with
  | ok result =>
    cases htr : (if method = Method.GET then transformStep result.data else .ok result.data) with
    | ok d =>
      refine ⟨rfl, ?_, ?_, ?_⟩ <;> simp [execute, hres, htr] <;> omega
    | error e =>
      refine ⟨rfl, ?_, ?_, ?_⟩ <;> simp [execute, hres, htr] <;> omega
  | error e =>
    refine ⟨rfl, ?_, ?_, ?_⟩ <;> simp [execute, hres] <;> omega

theorem execute_metrics_invariant_witness :
    (execute "a" { maxRetries := 0, initialDelayMs := 1, maxDelayMs := 1, backoffMultiplier := 1 }
      (fun v => .ok v) (fun _ => .error "down") .POST 5 "ts" initialMetrics).2.requestsTotal =
      (execute "a" { maxRetries := 0, initialDelayMs := 1, maxDelayMs := 1, backoffMultiplier := 1 }
        (fun v => .ok v) (fun _ => .error "down") .POST 5 "ts" initialMetrics).2.requestsSuccess +
      (execute "a" { maxRetries := 0, initialDelayMs := 1, maxDelayMs := 1, backoffMultiplier := 1 }
        (fun v => .ok v) (fun _ => .error "down") .POST 5 "ts" initialMetrics).2.requestsFailed :=
  (execute_metrics_invariant "a"
    { maxRetries := 0, initialDelayMs := 1, maxDelayMs := 1, backoffMultiplier := 1 }
    (fun v => .ok v) (fun _ => .error "down") .POST 5 "ts" initialMetrics).2.2.2 rfl

/-! ## Schema mapper lemmas -/

theorem jsHasKey_obj (fields : List (String × Value)) (k : String) :
    jsHasKey (.vObj fields) k = (lookupField fields k).isSome := by
  induction fields with
  | nil => rfl
  | cons hd tl ih =>
    by_cases h : hd.1 == k <;>
      simp [jsHasKey, lookupField, List.any_cons, List.find?, h] <;>
      simpa [jsHasKey, lookupField] using ih

theorem jsGetProp_obj (fields : List (String × Value)) (k : String) (v : Value)
    (h : lookupField fields k = some v) : jsGetProp (.vObj fields) k = v := by
  simp [jsGetProp, h]

theorem objSet_append (fields : List (String × Value)) (k : String) (v : Value)
    (h : fields.any (fun p => p.1 == k) = false) :
    objSet fields k v = fields ++ [(k, v)] := by
  simp [objSet, h]

theorem mapFieldsGo_filterMap (fields : List (String × Value)) :
    ∀ (mapping : List (String × String)) (acc : List (String × Value)),
      (mapping.map Prod.snd).Nodup →
      (∀ p ∈ mapping, acc.any (fun q => q.1 == p.2) = false) →
      mapFieldsGo (.vObj fields) mapping acc =
        .ok (acc ++ mapping.filterMap
          (fun p => (lookupField fields p.1).map (fun v => (p.2, v)))) := by
  intro mapping
  induction mapping with
  | nil => intro acc _ _; simp [mapFieldsGo]
  | cons hd tl ih =>
    intro acc hnd hacc
    have hstep : mapFieldsGo (.vObj fields) (hd :: tl) acc =
        (if jsHasKey (.vObj fields) hd.1 then
          mapFieldsGo (.vObj fields) tl (objSet acc hd.2 (jsGetProp (.vObj fields) hd.1))
        else
          mapFieldsGo (.vObj fields) tl acc) := rfl
    rw [hstep]
    rw [List.map_cons, List.nodup_cons] at hnd
    cases hlk : lookupField fields hd.1 with
    | some v =>
      rw [if_pos (by rw [jsHasKey_obj, hlk]; rfl)]
      rw [jsGetProp_obj fields hd.1 v hlk]
      rw [objSet_append acc hd.2 v (hacc hd (List.mem_cons_self hd tl))]
      rw [ih (acc ++ [(hd.2, v)]) hnd.2 ?side]
      case side =>
        intro p hp
        have h1 : acc.any (fun q => q.1 == p.2) = false := hacc p (List.mem_cons_of_mem hd hp)
        have h2 : hd.2 ≠ p.2 := fun hcontra => hnd.1 (hcontra ▸ List.mem_map_of_mem Prod.snd hp)
        simp [List.any_append, h1, h2]
      rw [List.filterMap_cons, hlk]
      simp
    | none =>
      rw [if_neg (by rw [jsHasKey_obj, hlk]; exact Bool.false_ne_true)]
      rw [ih acc hnd.2 (fun p hp => hacc p (List.mem_cons_of_mem hd hp))]
      rw [List.filterMap_cons, hlk]
      rfl

/-- C2: a configured schema mapping with (non-empty) `sourceFields` and
pairwise-distinct target names, applied to a structured object, yields
exactly the object holding, for each mapping entry in order whose source
field is a key of the input, the target field bound to the input's value
(un-mapped input fields are dropped), with `fieldsMapped` the number of
configured entries independent of how many sources were present. -/
theorem applySchemaMapping_renames (m : SchemaMapping) (fields : List (String × Value))
    (hne : m.sourceFields ≠ []) (ht : m.transforms = none)
    (hnd : (m.sourceFields.map Prod.snd).Nodup) :
    applySchemaMapping (some m) (.vObj fields) =
      .ok (.vObj (m.sourceFields.filterMap
          (fun p => (lookupField fields p.1).map (fun v => (p.2, v)))),
        m.sourceFields.length, 0) ∧
    (∀ t v, (t, v) ∈ m.sourceFields.filterMap
        (fun p => (lookupField fields p.1).map (fun v => (p.2, v))) ↔
      ∃ s, (s, t) ∈ m.sourceFields ∧ lookupField fields s = some v) := by
  constructor
  · have hmf : mapFields (.vObj fields) m.sourceFields =
        .ok (m.sourceFields.filterMap
          (fun p => (lookupField fields p.1).map (fun v => (p.2, v)))) := by
      have hgo := mapFieldsGo_filterMap fields m.sourceFields [] hnd (by simp)
      simpa [mapFields] using hgo
    simp [applySchemaMapping, applySchemaMappingSome, jsTypeofObject, hmf, ht]
  · intro t v
    rw [List.mem_filterMap]
    constructor
    · rintro ⟨⟨ps, pt⟩, hp, hf⟩
      rcases Option.map_eq_some'.mp hf with ⟨w, hw, hpair⟩
      rw [Prod.mk.injEq] at hpair
      obtain ⟨h1, h2⟩ := hpair
      subst h1
      subst h2
      exact ⟨ps, hp, hw⟩
    · rintro ⟨s, hs, hlk⟩
      exact ⟨(s, t), hs, by rw [hlk]; rfl⟩

theorem applySchemaMapping_renames_witness :
    applySchemaMapping
      (some { sourceFields := [("a", "x"), ("b", "y")], transforms := none })
      (.vObj [("a", .vNum (some 1)), ("b", .vNum (some 2)), ("c", .vNum (some 3))]) =
      .ok (.vObj [("x", .vNum (some 1)), ("y", .vNum (some 2))], 2, 0) := by
  have h := (applySchemaMapping_renames
    { sourceFields := [("a", "x"), ("b", "y")], transforms := none }
    [("a", .vNum (some 1)), ("b", .vNum (some 2)), ("c", .vNum (some 3))]
    (by simp) rfl (by simp)).1
  exact h.trans rfl

/-! ## Value transform lemmas -/

/-- C3 counterexample: the `date` transform is not total. On the
unparsable text `"not a date"` the source's
`new Date(String(value)).toISOString()` produces an Invalid Date whose
`toISOString` throws a RangeError — the transform errors instead of
returning an Invalid-Date-equivalent canonical string. -/
theorem applyTransformValue_date_counterexample :
    applyTransformValue (.vStr "not a date") .date = .error "Invalid time value" := rfl

/-- C3 (amended): every transform other than `date` is a deterministic
total function (`number` on non-numeric text yields the NaN marker, not an
error), and the `date` transform succeeds precisely on values whose string
coercion parses as a date — on unparsable text it throws (RangeError)
rather than producing a best-effort canonical string. -/
theorem applyTransformValue_totality (v : Value) (t : TransformType)
    (hnd : t ≠ .date) :
    (∃ w, applyTransformValue v t = .ok w) ∧
    applyTransformValue v .number = .ok (.vNum (jsToNumber v)) ∧
    applyTransformValue (.vStr "abc") .number = .ok (.vNum none) ∧
    applyTransformValue (.vStr "2024-01-15") .date =
      .ok (.vStr "2024-01-15T00:00:00.000Z") ∧
    (jsDateParseISO? (jsToString v) = none →
      applyTransformValue v .date = .error "Invalid time value") := by
  refine ⟨?_, rfl, rfl, rfl, ?_⟩
  · cases t with
    | date => exact absurd rfl hnd
    | number => exact ⟨_, rfl⟩
    | boolean => exact ⟨_, rfl⟩
    | uppercase => exact ⟨_, rfl⟩
    | lowercase => exact ⟨_, rfl⟩
    | custom => exact ⟨_, rfl⟩
  · intro h
    simp [applyTransformValue, h]

theorem applyTransformValue_totality_witness :
    ((∃ w, applyTransformValue (.vNum (some 5)) .uppercase = .ok w) ∧
      applyTransformValue (.vNum (some 5)) .number = .ok (.vNum (jsToNumber (.vNum (some 5)))) ∧
      applyTransformValue (.vStr "abc") .number = .ok (.vNum none) ∧
      applyTransformValue (.vStr "2024-01-15") .date =
        .ok (.vStr "2024-01-15T00:00:00.000Z") ∧
      (jsDateParseISO? (jsToString (.vNum (some 5))) = none →
        applyTransformValue (.vNum (some 5)) .date = .error "Invalid time value")) ∧
    applyTransformValue (.vStr "ab") .uppercase = .ok (.vStr "AB") ∧
    applyTransformValue (.vNum (some 5)) .uppercase = .ok (.vNum (some 5)) :=
  ⟨applyTransformValue_totality (.vNum (some 5)) .uppercase (by decide), rfl, rfl⟩

/-! ## CSV codec round trip -/

/-- C5 counterexample: the CSV round trip is not the identity on
`[\x7ba:"1", b:"2"\x7d]`. `toCSV` JSON-quotes every cell but `parseCSV` only
trims whitespace, so the decoded values keep their quote characters. -/
theorem csv_roundtrip_counterexample :
    parseCSV (toCSV [.vObj [("a", .vStr "1"), ("b", .vStr "2")]]) ≠
      [.vObj [("a", .vStr "1"), ("b", .vStr "2")]] := by
  intro h
  have he : parseCSV (toCSV [Value.vObj [("a", Value.vStr "1"), ("b", Value.vStr "2")]]) =
      [Value.vObj [("a", Value.vStr "\"1\""), ("b", Value.vStr "\"2\"")]] := rfl
  rw [he] at h
  simp at h

/-- C5 (amended): encoding `[\x7ba:"1", b:"2"\x7d]` and decoding the result
reproduces the field names and row structure, but each value comes back
wrapped in the JSON quotes added by the encoder. -/
theorem csv_roundtrip_quoted :
    parseCSV (toCSV [.vObj [("a", .vStr "1"), ("b", .vStr "2")]]) =
      [.vObj [("a", .vStr "\"1\""), ("b", .vStr "\"2\"")]] := rfl

/-! ## Transform-step shape lemmas -/

/-- C7: the transform step operates only over record arrays — any
non-array value passes through unchanged; per record, a rule whose
`sourceField` is present stores the transformed value under `targetField`
(overwriting in place when they coincide, appending otherwise); a rule
whose `sourceField` is absent leaves the record unchanged;
`fieldsTransformed` equals the number of configured rules, never a
per-record count; and a concrete two-record, two-rule run shows every
rule applied to every record. -/
theorem applyTransforms_record_arrays :
    (∀ (data : Value) (ts : List FieldTransform), (∀ items, data ≠ .vArr items) →
      applyTransforms data ts = .ok data) ∧
    (∀ (fields : List (String × Value)) (rule : FieldTransform) (v w : Value),
      lookupField fields rule.sourceField = some v →
      applyTransformValue v rule.transformType = .ok w →
      applyTransforms (.vArr [.vObj fields]) [rule] =
        .ok (.vArr [.vObj (objSet fields rule.targetField w)])) ∧
    (∀ (fields : List (String × Value)) (rule : FieldTransform),
      lookupField fields rule.sourceField = none →
      applyTransforms (.vArr [.vObj fields]) [rule] = .ok (.vArr [.vObj fields])) ∧
    (∀ (m : SchemaMapping) (data : Value) (ts : List FieldTransform) (out : Value × ℕ × ℕ),
      m.transforms = some ts →
      applySchemaMapping (some m) data = .ok out →
      out.2.2 = ts.length) ∧
    applyTransforms
      (.vArr [.vObj [("name", .vStr "ab"), ("qty", .vStr "7")],
        .vObj [("name", .vStr "cd")]])
      [{ sourceField := "name", targetField := "name", transformType := .uppercase },
        { sourceField := "qty", targetField := "inStock", transformType := .boolean }] =
      .ok (.vArr [.vObj [("name", .vStr "AB"), ("qty", .vStr "7"),
        ("inStock", .vBool true)],
        .vObj [("name", .vStr "CD")]]) := by
  refine ⟨?_, ?_, ?_, ?_, rfl⟩
  · intro data ts hnotarr
    cases data with
    | vArr items => exact absurd rfl (hnotarr items)
    | vNull => rfl
    | vUndefined => rfl
    | vBool b => rfl
    | vNum n => rfl
    | vStr s => rfl
    | vObj fs => rfl
  · intro fields rule v w hlk htv
    simp [applyTransforms, transformItems, jsSpreadFields, applyTransformsToRecord,
      hlk, htv, Except.map]
  · intro fields rule hlk
    simp [applyTransforms, transformItems, jsSpreadFields, applyTransformsToRecord,
      hlk, Except.map]
  · intro m data ts out hts happ
    rw [show applySchemaMapping (some m) data = applySchemaMappingSome m data from rfl] at happ
    cases h1 : (if jsTypeofObject data then
        match mapFields data m.sourceFields with
        | .ok fields => .ok (Value.vObj fields, m.sourceFields.length)
        | .error e => .error e
      else
        .ok (data, 0) : Except String (Value × ℕ)) with
    | error e =>
      have key : applySchemaMappingSome m data = .error e := by
        unfold applySchemaMappingSome
        rw [h1]
      rw [key] at happ
      exact absurd happ (by simp)
    | ok step1 =>
      have key : applySchemaMappingSome m data =
          (match applyTransforms step1.1 ts with
           | .ok r => .ok (r, step1.2, ts.length)
           | .error e => .error e) := by
        unfold applySchemaMappingSome
        rw [h1, hts]
      rw [key] at happ
      cases h2 : applyTransforms step1.1 ts with
      | error e =>
        rw [h2] at happ
        exact absurd happ (by simp)
      | ok r =>
        rw [h2] at happ
        have hinj := Except.ok.inj happ
        rw [← hinj]

theorem applyTransforms_record_arrays_witness :
    applyTransforms (.vStr "scalar")
      [{ sourceField := "n", targetField := "n", transformType := .uppercase }] =
      .ok (.vStr "scalar") ∧
    applyTransforms (.vArr [.vObj [("n", .vStr "ab")]])
      [{ sourceField := "n", targetField := "N", transformType := .uppercase }] =
      .ok (.vArr [.vObj [("n", .vStr "ab"), ("N", .vStr "AB")]]) ∧
    applyTransforms (.vArr [.vObj [("k", .vStr "z")]])
      [{ sourceField := "n", targetField := "N", transformType := .uppercase }] =
      .ok (.vArr [.vObj [("k", .vStr "z")]]) ∧
    (applySchemaMapping (some { sourceFields := [("a", "x")], transforms := some [{ sourceField := "n", targetField := "n", transformType := .uppercase }] })
      (.vObj [])).map (fun out => out.2.2) = .ok 1 := by
  refine ⟨?_, ?_, ?_, ?_⟩
  · exact applyTransforms_record_arrays.1 (.vStr "scalar")
      [{ sourceField := "n", targetField := "n", transformType := .uppercase }]
      (fun items => by simp)
  · exact (applyTransforms_record_arrays.2.1 [("n", .vStr "ab")]
      { sourceField := "n", targetField := "N", transformType := .uppercase }
      (.vStr "ab") (.vStr "AB") rfl rfl).trans rfl
  · exact applyTransforms_record_arrays.2.2.1 [("k", .vStr "z")]
      { sourceField := "n", targetField := "N", transformType := .uppercase } rfl
  · have h := applyTransforms_record_arrays.2.2.2.1
      { sourceFields := [("a", "x")], transforms := some [{ sourceField := "n", targetField := "n", transformType := .uppercase }] }
      (.vObj []) [{ sourceField := "n", targetField := "n", transformType := .uppercase }]
      (.vObj [], 1, 1) rfl rfl
    calc (applySchemaMapping (some { sourceFields := [("a", "x")], transforms := some [{ sourceField := "n", targetField := "n", transformType := .uppercase }] })
        (.vObj [])).map (fun out => out.2.2)
        = Except.ok ((Value.vObj [], 1, 1) : Value × ℕ × ℕ).2.2 := rfl
      _ = Except.ok 1 := by rw [h]; rfl

/-! ## Schema inference lemmas -/

/-- C8: on a non-empty array whose first element is a record object,
`inferSchema` produces one field per entry of that first element (in
order), typed from the first element's value; `nullable` is true exactly
when some element of the whole array is null or missing at that key;
`sampleValues` are the values at that key of the first (at most) five
elements; and the spec's example infers `id : number, nullable false` and
`name : string, nullable true`. -/
theorem inferSchema_array_shape (entries : List (String × Value)) (rest : List Value) :
    (inferSchema (.vArr (.vObj entries :: rest))).fields.length = entries.length ∧
    List.Forall₂ (fun (e : String × Value) (f : InferredField) =>
      f.name = e.1 ∧
      f.type = inferFieldType e.2 ∧
      (f.nullable = true ↔ ∃ item ∈ Value.vObj entries :: rest,
        isNullish (jsGetProp item e.1) = true) ∧
      f.sampleValues = ((Value.vObj entries :: rest).take 5).map
        (fun item => jsGetProp item e.1))
      entries (inferSchema (.vArr (.vObj entries :: rest))).fields ∧
    (inferSchema (.vArr [.vObj [("id", .vNum (some 1)), ("name", .vStr "x")],
        .vObj [("id", .vNum (some 2)), ("name", .vNull)]])).fields.map
      (fun f => (f.name, f.type, f.nullable)) =
      [("id", .number, false), ("name", .string, true)] := by
  have hf : (inferSchema (.vArr (.vObj entries :: rest))).fields =
      entries.map (fun e =>
        { name := e.1
          type := inferFieldType e.2
          nullable := (Value.vObj entries :: rest).any
            (fun item => isNullish (jsGetProp item e.1))
          sampleValues := ((Value.vObj entries :: rest).take 5).map
            (fun item => jsGetProp item e.1) }) := rfl
  refine ⟨by rw [hf, List.length_map], ?_, rfl⟩
  rw [hf, List.forall₂_map_right_iff]
  rw [List.forall₂_same]
  intro e _
  exact ⟨rfl, rfl, by rw [List.any_eq_true], rfl⟩

/-! ## Metrics copy (heap) lemmas -/

theorem mem_lt_freshAddr (store : List (ℕ × AdapterMetrics)) :
    ∀ p ∈ store, p.1 < freshAddr store := by
  have hmax : ∀ (l : List ℕ) (a : ℕ), a ∈ l → a ≤ l.foldr max 0 := by
    intro l
    induction l with
    | nil => intro a ha; cases ha
    | cons x xs ih =>
      intro a ha
      rcases List.mem_cons.mp ha with h | h
      · subst h; exact le_max_left _ _
      · exact le_trans (ih a h) (le_max_right _ _)
  intro p hp
  have h1 : p.1 ∈ store.map (·.1) := List.mem_map_of_mem _ hp
  have h2 := hmax (store.map (·.1)) p.1 h1
  unfold freshAddr
  omega

theorem heapGet_mem (store : List (ℕ × AdapterMetrics)) (a : ℕ) (m : AdapterMetrics)
    (h : heapGet store a = some m) : (a, m) ∈ store := by
  unfold heapGet at h
  rcases Option.map_eq_some'.mp h with ⟨q, hq, hm⟩
  have hmem := List.mem_of_find?_eq_some hq
  have hpred := List.find?_some hq
  have hkey : q.1 = a := by simpa using hpred
  have : q = (a, m) := by
    rw [Prod.ext_iff]
    exact ⟨hkey, hm⟩
  rwa [this] at hmem

theorem heapGet_cons_ne (a b : ℕ) (v : AdapterMetrics)
    (store : List (ℕ × AdapterMetrics)) (h : a ≠ b) :
    heapGet ((a, v) :: store) b = heapGet store b := by
  unfold heapGet
  rw [List.find?_cons_of_neg]
  simpa using h

theorem heapGet_cons_self (a : ℕ) (v : AdapterMetrics)
    (store : List (ℕ × AdapterMetrics)) :
    heapGet ((a, v) :: store) a = some v := by
  unfold heapGet
  rw [List.find?_cons_of_pos]
  · rfl
  · simp

theorem heapGet_write_ne (store : List (ℕ × AdapterMetrics)) (a b : ℕ)
    (v : AdapterMetrics) (hne : a ≠ b) :
    heapGet (heapWrite store a v) b = heapGet store b := by
  induction store with
  | nil => rfl
  | cons hd tl ih =>
    by_cases hb : hd.1 = b
    · by_cases ha : hd.1 = a
      · exact absurd (ha ▸ hb) hne
      · unfold heapWrite heapGet
        simp only [List.map_cons]
        rw [if_neg (by simpa using ha)]
        rw [List.find?_cons_of_pos _ (by simpa using hb),
          List.find?_cons_of_pos _ (by simpa using hb)]
    · unfold heapWrite heapGet
      simp only [List.map_cons]
      by_cases ha : hd.1 = a
      · rw [if_pos (by simpa using ha)]
        rw [List.find?_cons_of_neg _ (by simpa using hb),
          List.find?_cons_of_neg _ (by simpa using hb)]
        exact ih
      · rw [if_neg (by simpa using ha)]
        rw [List.find?_cons_of_neg _ (by simpa using hb),
          List.find?_cons_of_neg _ (by simpa using hb)]
        exact ih

theorem getMetrics_returns_current (H : MetricsHeap) (m : AdapterMetrics)
    (hm : heapGet H.store H.selfAddr = some m) :
    heapGet (getMetrics H).1.store (getMetrics H).2 = some m := by
  have hstore : (getMetrics H).1.store =
      (freshAddr H.store, (heapGet H.store H.selfAddr).getD initialMetrics) :: H.store := rfl
  rw [hm] at hstore
  rw [hstore, show (getMetrics H).2 = freshAddr H.store from rfl]
  exact heapGet_cons_self _ _ _

/-- C10: `getMetrics` returns a fresh shallow copy — the returned address
differs from the adapter's internal metrics object, holds the same metrics
value, and overwriting the copy with any value leaves both the internal
object and the result of a subsequent `getMetrics` unchanged. -/
theorem getMetrics_fresh_copy (h : MetricsHeap) (m : AdapterMetrics)
    (hm : heapGet h.store h.selfAddr = some m) :
    (getMetrics h).2 ≠ h.selfAddr ∧
    heapGet (getMetrics h).1.store (getMetrics h).2 = some m ∧
    heapGet (getMetrics h).1.store h.selfAddr = some m ∧
    (∀ v : AdapterMetrics,
      heapGet (heapWrite (getMetrics h).1.store (getMetrics h).2 v) h.selfAddr = some m ∧
      heapGet
        (getMetrics { store := heapWrite (getMetrics h).1.store (getMetrics h).2 v, selfAddr := h.selfAddr }).1.store
        (getMetrics { store := heapWrite (getMetrics h).1.store (getMetrics h).2 v, selfAddr := h.selfAddr }).2 = some m) := by
  have hself : (h.selfAddr, m) ∈ h.store := heapGet_mem h.store h.selfAddr m hm
  have hlt : h.selfAddr < freshAddr h.store := mem_lt_freshAddr h.store (h.selfAddr, m) hself
  have hne : freshAddr h.store ≠ h.selfAddr := by omega
  have hstore : (getMetrics h).1.store =
      (freshAddr h.store, (heapGet h.store h.selfAddr).getD initialMetrics) :: h.store := rfl
  rw [hm] at hstore
  have haddr : (getMetrics h).2 = freshAddr h.store := rfl
  have hgetnew : heapGet (getMetrics h).1.store (getMetrics h).2 = some m :=
    getMetrics_returns_current h m hm
  have hgetself : heapGet (getMetrics h).1.store h.selfAddr = some m := by
    rw [hstore]
    rw [heapGet_cons_ne _ _ _ _ hne]
    exact hm
  refine ⟨by rw [haddr]; exact hne, hgetnew, hgetself, ?_⟩
  intro v
  have hwr : heapGet (heapWrite (getMetrics h).1.store (getMetrics h).2 v) h.selfAddr = some m := by
    rw [heapGet_write_ne _ _ _ _ (by rw [haddr]; exact hne)]
    exact hgetself
  exact ⟨hwr, getMetrics_returns_current
    { store := heapWrite (getMetrics h).1.store (getMetrics h).2 v, selfAddr := h.selfAddr }
    m hwr⟩

theorem getMetrics_fresh_copy_witness :
    (getMetrics { store := [(0, initialMetrics)], selfAddr := 0 }).2 ≠ 0 ∧
    heapGet (getMetrics { store := [(0, initialMetrics)], selfAddr := 0 }).1.store
      (getMetrics { store := [(0, initialMetrics)], selfAddr := 0 }).2 = some initialMetrics ∧
    heapGet (getMetrics { store := [(0, initialMetrics)], selfAddr := 0 }).1.store 0 =
      some initialMetrics ∧
    (∀ v : AdapterMetrics,
      heapGet (heapWrite (getMetrics { store := [(0, initialMetrics)], selfAddr := 0 }).1.store
        (getMetrics { store := [(0, initialMetrics)], selfAddr := 0 }).2 v) 0 = some initialMetrics ∧
      heapGet
        (getMetrics { store := heapWrite (getMetrics { store := [(0, initialMetrics)], selfAddr := 0 }).1.store (getMetrics { store := [(0, initialMetrics)], selfAddr := 0 }).2 v, selfAddr := 0 }).1.store
        (getMetrics { store := heapWrite (getMetrics { store := [(0, initialMetrics)], selfAddr := 0 }).1.store (getMetrics { store := [(0, initialMetrics)], selfAddr := 0 }).2 v, selfAddr := 0 }).2 = some initialMetrics) :=
  getMetrics_fresh_copy { store := [(0, initialMetrics)], selfAddr := 0 } initialMetrics rfl

end LegacyAdapter
